import Mathlib

/-!
Verification of the fetchgitissue repository: a shallow embedding of the
pagination / rate-limit fetch loops of `fetch_issues.py` and
`github_issue_analyzer/fetch_github_issues.py`, together with the heuristic
analysis passes (duplicate detection, staleness detection, categorization,
PR-linkage check), and proofs of the specified properties.

Network interaction is modelled by a script: a list of responses, one per
HTTP request issued by the loop.  Wall-clock time is an explicit natural
number threaded through the state; `time.sleep(s)` advances it by `s`
(a negative sleep argument raises an uncaught exception in Python, modelled
by the `crash` outcome).
-/

/-- One HTTP response, as the fetch loops case on it:
a JSON page of records, a 403 (with the `X-RateLimit-Remaining == '0'`
signal or not, plus the `X-RateLimit-Reset` value), another error status
raising `HTTPError` in `raise_for_status`, a malformed (non-JSON) body, or
a network-level `RequestException`. -/
inductive Resp (α : Type) where
  | ok (records : List α)
  | forbidden (rateLimited : Bool) (reset : Nat)
  | httpError (status : Nat)
  | badJson
  | netError
deriving DecidableEq

/-- What an error branch of a fetch loop does: `sys.exit(1)` or
stop the loop and return the accumulated records. -/
inductive EAction where
  | exitFatal
  | stopReturn
deriving DecidableEq

/-- The error-handling shape of one fetch loop: what it does on a 403
without the rate-limit signal, on an `HTTPError` with a given status, on a
`RequestException`, and on a JSON decode error. -/
structure Policy where
  onForbiddenNoRL : EAction
  onHttp : Nat → EAction
  onNet : EAction
  onBadJson : EAction

/-- Loop state: current `page` counter, current wall-clock time, and the
accumulated records (`issues` resp. `comments` in the source). -/
structure FSt (α : Type) where
  page : Nat
  clock : Nat
  acc : List α
deriving DecidableEq

/-- Loop outcome: a normal `return` of the accumulated records,
`sys.exit(1)`, an uncaught exception from a negative `time.sleep`
argument, or the script running out of responses (the real loop would
block on the next request). -/
inductive FOut (α : Type) where
  | done (records : List α)
  | exit1
  | crash
  | starved
deriving DecidableEq

/-- The `while True` fetch loop shared (up to the `Policy` and the per-page
accumulation function `accum`) by `fetch_issues` and `extract_comments` in
both source files.  Each iteration issues one request, recorded in the
returned trace as a `(page, clock)` pair, and consumes the next scripted
response.  On a 403 with `X-RateLimit-Remaining == '0'` it sleeps
`reset - clock + 1` seconds and retries without touching the page counter;
on a page of records it stops on an empty page, extends the accumulator,
stops if the page is shorter than `perPage`, and otherwise increments the
page counter and sleeps `delay` before the next request. -/
def runFetch {α : Type} (pol : Policy) (accum : List α → List α)
    (perPage delay : Nat) : List (Resp α) → FSt α → List (Nat × Nat) × FOut α
  | [], st => ([(st.page, st.clock)], FOut.starved)
  | Resp.ok records :: rest, st =>
    if records.isEmpty then
      ([(st.page, st.clock)], FOut.done st.acc)
    else if records.length < perPage then
      ([(st.page, st.clock)], FOut.done (st.acc ++ accum records))
    else
      ((st.page, st.clock) ::
        (runFetch pol accum perPage delay rest
          ⟨st.page + 1, st.clock + delay, st.acc ++ accum records⟩).1,
       (runFetch pol accum perPage delay rest
          ⟨st.page + 1, st.clock + delay, st.acc ++ accum records⟩).2)
  | Resp.forbidden true reset :: rest, st =>
    if (reset : Int) - (st.clock : Int) + 1 < 0 then
      ([(st.page, st.clock)], FOut.crash)
    else
      ((st.page, st.clock) ::
        (runFetch pol accum perPage delay rest
          ⟨st.page, st.clock + ((reset : Int) - (st.clock : Int) + 1).toNat, st.acc⟩).1,
       (runFetch pol accum perPage delay rest
          ⟨st.page, st.clock + ((reset : Int) - (st.clock : Int) + 1).toNat, st.acc⟩).2)
  | Resp.forbidden false _ :: _, st =>
    match pol.onForbiddenNoRL with
    | EAction.exitFatal => ([(st.page, st.clock)], FOut.exit1)
    | EAction.stopReturn => ([(st.page, st.clock)], FOut.done st.acc)
  | Resp.httpError s :: _, st =>
    match pol.onHttp s with
    | EAction.exitFatal => ([(st.page, st.clock)], FOut.exit1)
    | EAction.stopReturn => ([(st.page, st.clock)], FOut.done st.acc)
  | Resp.badJson :: _, st =>
    match pol.onBadJson with
    | EAction.exitFatal => ([(st.page, st.clock)], FOut.exit1)
    | EAction.stopReturn => ([(st.page, st.clock)], FOut.done st.acc)
  | Resp.netError :: _, st =>
    match pol.onNet with
    | EAction.exitFatal => ([(st.page, st.clock)], FOut.exit1)
    | EAction.stopReturn => ([(st.page, st.clock)], FOut.done st.acc)

/-- Error handling of the primary issue loop in `fetch_issues.py`:
403 without rate-limit signal, network errors and JSON decode errors call
`sys.exit(1)`; an `HTTPError` exits unless the status is 422, which is
treated as the end of pagination. -/
def polScriptIssues : Policy :=
  ⟨EAction.exitFatal,
   fun s => if s = 422 then EAction.stopReturn else EAction.exitFatal,
   EAction.exitFatal,
   EAction.exitFatal⟩

/-- Error handling of the issue loop in
`github_issue_analyzer/fetch_github_issues.py`: a 403 without the
rate-limit signal does `return issues`, and every caught
`RequestException` (which includes `HTTPError` from `raise_for_status`
and the JSON decode error of current `requests`) breaks out of the loop,
after which the accumulated list is returned. -/
def polPkgIssues : Policy :=
  ⟨EAction.stopReturn, fun _ => EAction.stopReturn,
   EAction.stopReturn, EAction.stopReturn⟩

/-- Error handling of `extract_comments` in both source files: every error
branch breaks out of the loop and the accumulated comments are returned. -/
def polComments : Policy :=
  ⟨EAction.stopReturn, fun _ => EAction.stopReturn,
   EAction.stopReturn, EAction.stopReturn⟩

/-- A record returned by the issues endpoint, reduced to the fields the
fetch pipeline inspects: its `number` and whether it carries the
`pull_request` marker key. -/
structure RawRec where
  num : Nat
  hasPR : Bool
deriving DecidableEq

/-- Per-page accumulation of `fetch_issues` in
`github_issue_analyzer/fetch_github_issues.py`: with
`only_open_without_pr` set it loops over the page skipping records with a
`pull_request` key, otherwise it appends the list comprehension filtering
those records out. -/
def pkgPageAccum (onlyOpenWithoutPr : Bool) (page : List RawRec) : List RawRec :=
  if onlyOpenWithoutPr then
    page.foldl (fun acc r => if r.hasPR then acc else acc ++ [r]) []
  else
    page.filter (fun r => !r.hasPR)

/-- The `state` query parameter chosen by `fetch_issues` in
`github_issue_analyzer/fetch_github_issues.py`
(`state = 'open' if only_open_without_pr else 'all'`). -/
def stateParam (onlyOpenWithoutPr : Bool) : String :=
  if onlyOpenWithoutPr then "open" else "all"

/-- The flag combination computed by `main` of the analyzer:
`only_open_without_pr = args.open_only and args.no_pr`. -/
def only_open_without_pr (openOnly noPr : Bool) : Bool :=
  openOnly && noPr

/-- A full page of one hundred PR-free records, used as a concrete input. -/
def fullPage : List RawRec :=
  (List.range 100).map (fun n => { num := n, hasPR := false })

lemma foldl_skip_pr (page : List RawRec) (a : List RawRec) :
    page.foldl (fun acc r => if r.hasPR then acc else acc ++ [r]) a
      = a ++ page.filter (fun r => !r.hasPR) := by
  induction page generalizing a with
  | nil => simp
  | cons r rs ih =>
    by_cases h : r.hasPR <;> simp [List.foldl_cons, h, ih, List.filter_cons]

lemma pkgPageAccum_eq_filter (b : Bool) (page : List RawRec) :
    pkgPageAccum b page = page.filter (fun r => !r.hasPR) := by
  cases b <;> simp [pkgPageAccum, foldl_skip_pr]

lemma pkgPageAccum_nil (b : Bool) : pkgPageAccum b [] = [] := by
  cases b <;> simp [pkgPageAccum]

/-- Running the loop on a script of full pages followed by one final short
page: the trace walks consecutive page numbers and the outcome is the
concatenation of the per-page accumulations. -/
lemma runFetch_ok_pages {α : Type} (pol : Policy) (accum : List α → List α)
    (d : Nat) (hnil : accum [] = []) :
    ∀ (fulls : List (List α)) (last : List α) (p c : Nat) (a : List α),
    (∀ q ∈ fulls, q.length = 100) → last.length < 100 →
    (runFetch pol accum 100 d ((fulls ++ [last]).map Resp.ok) ⟨p, c, a⟩).1.map Prod.fst
        = List.range' p (fulls.length + 1)
    ∧ (runFetch pol accum 100 d ((fulls ++ [last]).map Resp.ok) ⟨p, c, a⟩).2
        = FOut.done (a ++ ((fulls ++ [last]).map accum).flatten) := by
  intro fulls
  induction fulls with
  | nil =>
    intro last p c a _ hl
    by_cases hemp : last.isEmpty
    · have hlast : last = [] := by
        cases last with
        | nil => rfl
        | cons x xs => simp [List.isEmpty] at hemp
      subst hlast
      simp [runFetch, List.range', hnil]
    · have : last.length < 100 := hl
      simp [runFetch, hemp, this, List.range']
  | cons q fs ih =>
    intro last p c a hf hl
    have hq : q.length = 100 := hf q (List.mem_cons_self _ _)
    have hqne : q.isEmpty = false := by
      cases q with
      | nil => simp at hq
      | cons x xs => simp [List.isEmpty]
    have hnlt : ¬ q.length < 100 := by omega
    have ihspec := ih last (p + 1) (c + d) (a ++ accum q)
      (fun r hr => hf r (List.mem_cons_of_mem _ hr)) hl
    constructor
    · show ((runFetch pol accum 100 d (Resp.ok q :: (fs ++ [last]).map Resp.ok)
        ⟨p, c, a⟩).1).map Prod.fst = _
      rw [runFetch]
      simp only [hqne, Bool.false_eq_true, if_false, hnlt, List.map_cons]
      rw [List.range'_succ]
      exact congrArg (List.cons p) ihspec.1
    · show (runFetch pol accum 100 d (Resp.ok q :: (fs ++ [last]).map Resp.ok)
        ⟨p, c, a⟩).2 = _
      rw [runFetch]
      simp only [hqne, Bool.false_eq_true, if_false, hnlt]
      rw [ihspec.2]
      simp [List.append_assoc]

lemma runFetch_trace_head {α : Type} (pol : Policy) (accum : List α → List α)
    (pp d : Nat) (script : List (Resp α)) (st : FSt α) :
    ((runFetch pol accum pp d script st).1).head? = some (st.page, st.clock) := by
  cases script with
  | nil => simp [runFetch]
  | cons r rest =>
    cases r with
    | ok records =>
      by_cases h1 : records.isEmpty
      · simp [runFetch, h1]
      · by_cases h2 : records.length < pp <;> simp [runFetch, h1, h2]
    | forbidden rl reset =>
      cases rl with
      | true =>
        by_cases h : (reset : Int) - (st.clock : Int) + 1 < 0 <;> simp [runFetch, h]
      | false =>
        cases hp : pol.onForbiddenNoRL <;> simp [runFetch, hp]
    | httpError s =>
      cases hp : pol.onHttp s <;> simp [runFetch, hp]
    | badJson =>
      cases hp : pol.onBadJson <;> simp [runFetch, hp]
    | netError =>
      cases hp : pol.onNet <;> simp [runFetch, hp]

/-- C1: on a script of N full pages of 100 records followed by one final
page of fewer than 100 records, both issue fetch loops issue exactly N+1
requests at page numbers 1, 2, ..., N+1 and return the concatenation of
the pages in request order, stopping exactly at the short page (records
being PR-free so that the analyzer's per-page filtering keeps all of
them). -/
theorem pagination_termination (d c : Nat) (b : Bool)
    (fulls : List (List RawRec)) (last : List RawRec)
    (hf : ∀ q ∈ fulls, q.length = 100) (hl : last.length < 100)
    (hpr : ∀ q ∈ fulls ++ [last], ∀ r ∈ q, r.hasPR = false) :
    ((runFetch polScriptIssues (fun p => p) 100 d ((fulls ++ [last]).map Resp.ok)
        ⟨1, c, []⟩).1.map Prod.fst = List.range' 1 (fulls.length + 1))
    ∧ ((runFetch polScriptIssues (fun p => p) 100 d ((fulls ++ [last]).map Resp.ok)
        ⟨1, c, []⟩).2 = FOut.done (fulls ++ [last]).flatten)
    ∧ ((runFetch polPkgIssues (pkgPageAccum b) 100 d ((fulls ++ [last]).map Resp.ok)
        ⟨1, c, []⟩).1.map Prod.fst = List.range' 1 (fulls.length + 1))
    ∧ ((runFetch polPkgIssues (pkgPageAccum b) 100 d ((fulls ++ [last]).map Resp.ok)
        ⟨1, c, []⟩).2 = FOut.done (fulls ++ [last]).flatten) := by
  have h1 := runFetch_ok_pages polScriptIssues (fun p => p) d rfl fulls last 1 c [] hf hl
  have h2 := runFetch_ok_pages polPkgIssues (pkgPageAccum b) d (pkgPageAccum_nil b)
    fulls last 1 c [] hf hl
  have hall : ∀ q ∈ fulls ++ [last], pkgPageAccum b q = q := by
    intro q hq
    rw [pkgPageAccum_eq_filter]
    exact List.filter_eq_self.mpr (fun r hr => by simp [hpr q hq r hr])
  have hmap2 : ((fulls ++ [last]).map (pkgPageAccum b)) = fulls ++ [last] := by
    calc ((fulls ++ [last]).map (pkgPageAccum b)) = (fulls ++ [last]).map id :=
          List.map_congr_left hall
      _ = fulls ++ [last] := List.map_id _
  refine ⟨?_, ?_, ?_, ?_⟩
  · simpa using h1.1
  · have h := h1.2
    simpa using h
  · simpa using h2.1
  · have h := h2.2
    rw [hmap2] at h
    simpa using h

/-- C1 witness: one full page then an empty final page gives two requests
and the concatenation of both pages. -/
theorem pagination_termination_witness :
    (fullPage.length = 100 ∧ ([] : List RawRec).length < 100) ∧
    (runFetch polScriptIssues (fun p => p) 100 0 (([fullPage] ++ [[]]).map Resp.ok)
        ⟨1, 0, []⟩).2 = FOut.done ([fullPage] ++ [([] : List RawRec)]).flatten :=
  ⟨⟨by decide, by decide⟩,
   (pagination_termination 0 0 false [fullPage] [] (by decide) (by decide)
      (by decide)).2.1⟩

/-- C2 counterexample: a 403 rate-limit response whose reset time is
already more than one second in the past makes the computed sleep
duration negative, so `time.sleep` raises an uncaught `ValueError` and
the loop crashes after a single request instead of retrying the page. -/
theorem rate_limit_stale_reset_crash :
    runFetch polScriptIssues (fun p => p) 100 0
        [Resp.forbidden true 0] ⟨1, 5, ([] : List RawRec)⟩ = ([(1, 5)], FOut.crash) := by
  decide

/-- C2 (amended): on a 403 with the rate-limit signal reporting reset time
T, provided the current clock is at most T+1 (non-negative sleep), every
fetch loop - whatever its error policy, hence both the issue loops and the
comment loops - sleeps exactly until T+1 and re-issues the request for the
same page number, and the loop continues exactly as if restarted there. -/
theorem rate_limit_retry {α : Type} (pol : Policy) (accum : List α → List α)
    (d T : Nat) (script : List (Resp α)) (st : FSt α) (h : st.clock ≤ T + 1) :
    runFetch pol accum 100 d (Resp.forbidden true T :: script) st
      = ((st.page, st.clock) ::
           (runFetch pol accum 100 d script ⟨st.page, T + 1, st.acc⟩).1,
         (runFetch pol accum 100 d script ⟨st.page, T + 1, st.acc⟩).2)
    ∧ ((runFetch pol accum 100 d script ⟨st.page, T + 1, st.acc⟩).1).head?
        = some (st.page, T + 1) := by
  have hnn : ¬ ((T : Int) - (st.clock : Int) + 1 < 0) := by omega
  have hclk : st.clock + ((T : Int) - (st.clock : Int) + 1).toNat = T + 1 := by omega
  constructor
  · rw [runFetch, if_neg hnn, hclk]
  · exact runFetch_trace_head pol accum 100 d script ⟨st.page, T + 1, st.acc⟩

/-- C2 witness: after a 403 with reset time 10 at clock 0, the next request
is issued for the same page 1 at clock 11. -/
theorem rate_limit_retry_witness :
    (0 : Nat) ≤ 10 + 1 ∧
    ((runFetch polScriptIssues (fun p => p) 100 0
        [Resp.ok [RawRec.mk 0 false]] ⟨1, 10 + 1, ([] : List RawRec)⟩).1).head?
      = some (1, 10 + 1) :=
  ⟨by decide,
   (rate_limit_retry polScriptIssues (fun p => p) 0 10
      [Resp.ok [RawRec.mk 0 false]] ⟨1, 0, []⟩ (by decide)).2⟩

/-- C3 counterexample: in the analyzer's `fetch_issues`, a 403 without the
rate-limit signal after a successful full page does `return issues`: the
run yields the partially accumulated list and does not terminate the
process. -/
theorem pkg_forbidden_returns_partial :
    (runFetch polPkgIssues (pkgPageAccum false) 100 0
        [Resp.ok fullPage, Resp.forbidden false 0] ⟨1, 0, []⟩).2
      = FOut.done fullPage
    ∧ fullPage ≠ [] ∧ FOut.done fullPage ≠ (FOut.exit1 : FOut RawRec) := by
  refine ⟨by decide, by decide, by decide⟩

/-- C3 (amended): in the standalone script `fetch_issues.py`, the primary
issue loop terminates the process (`sys.exit(1)`) on a 403 without the
rate-limit signal, on a network error, on malformed JSON, and on an
`HTTPError` with any status other than 422; a 422 instead ends pagination
with the accumulated list. -/
theorem script_fetch_fatal (d : Nat) (rest : List (Resp RawRec)) (st : FSt RawRec)
    (hh s : Nat) (hs : s ≠ 422) :
    ((runFetch polScriptIssues (fun p => p) 100 d
        (Resp.forbidden false hh :: rest) st).2 = FOut.exit1)
    ∧ ((runFetch polScriptIssues (fun p => p) 100 d
        (Resp.netError :: rest) st).2 = FOut.exit1)
    ∧ ((runFetch polScriptIssues (fun p => p) 100 d
        (Resp.badJson :: rest) st).2 = FOut.exit1)
    ∧ ((runFetch polScriptIssues (fun p => p) 100 d
        (Resp.httpError s :: rest) st).2 = FOut.exit1)
    ∧ ((runFetch polScriptIssues (fun p => p) 100 d
        (Resp.httpError 422 :: rest) st).2 = FOut.done st.acc) := by
  refine ⟨?_, ?_, ?_, ?_, ?_⟩ <;> simp [runFetch, polScriptIssues, hs]

/-- C3 witness: a network error on the first request exits the process. -/
theorem script_fetch_fatal_witness :
    (500 : Nat) ≠ 422 ∧
    (runFetch polScriptIssues (fun p => p) 100 0 [Resp.netError]
        ⟨1, 0, ([] : List RawRec)⟩).2 = FOut.exit1 :=
  ⟨by decide, (script_fetch_fatal 0 [] ⟨1, 0, []⟩ 0 500 (by decide)).2.1⟩

lemma comments_no_exit {α : Type} (d : Nat) :
    ∀ (script : List (Resp α)) (st : FSt α),
    (runFetch polComments (fun p => p) 100 d script st).2 ≠ FOut.exit1 := by
  intro script
  induction script with
  | nil => intro st; simp [runFetch]
  | cons r rest ih =>
    intro st
    cases r with
    | ok records =>
      by_cases h1 : records.isEmpty
      · simp [runFetch, h1]
      · by_cases h2 : records.length < 100
        · simp [runFetch, h1, h2]
        · simp only [runFetch, h1, Bool.false_eq_true, if_false, h2]
          exact ih _
    | forbidden rl reset =>
      cases rl with
      | true =>
        by_cases h : (reset : Int) - (st.clock : Int) + 1 < 0
        · simp [runFetch, h]
        · simp only [runFetch, h, if_false]
          exact ih _
      | false => simp [runFetch, polComments]
    | httpError s => simp [runFetch, polComments]
    | badJson => simp [runFetch, polComments]
    | netError => simp [runFetch, polComments]

/-- C5 counterexample: a network error on the second comment page, after a
successful full first page, makes `extract_comments` return the one
hundred already-fetched comments - a non-empty sequence, not the empty
sequence the claim states. -/
theorem comments_error_returns_partial :
    (runFetch polComments (fun p => p) 100 0
        [Resp.ok fullPage, Resp.netError] ⟨1, 0, []⟩).2 = FOut.done fullPage
    ∧ fullPage ≠ [] := by
  refine ⟨by decide, by decide⟩

/-- C5 (amended): on any unrecoverable error (403 without the rate-limit
signal, HTTP error, network error, malformed body) the comment loop of
`extract_comments` stops and returns the comments accumulated from the
pages fetched so far (empty only when the error hits the first page), and
it never calls `sys.exit`, so the overall run continues with the next
issue. -/
theorem comments_error_local {α : Type} (d : Nat) (rest : List (Resp α))
    (st : FSt α) (hh s : Nat) :
    ((runFetch polComments (fun p => p) 100 d
        (Resp.forbidden false hh :: rest) st).2 = FOut.done st.acc)
    ∧ ((runFetch polComments (fun p => p) 100 d
        (Resp.netError :: rest) st).2 = FOut.done st.acc)
    ∧ ((runFetch polComments (fun p => p) 100 d
        (Resp.badJson :: rest) st).2 = FOut.done st.acc)
    ∧ ((runFetch polComments (fun p => p) 100 d
        (Resp.httpError s :: rest) st).2 = FOut.done st.acc)
    ∧ ∀ script : List (Resp α),
        (runFetch polComments (fun p => p) 100 d script st).2 ≠ FOut.exit1 := by
  refine ⟨?_, ?_, ?_, ?_, fun script => comments_no_exit d script st⟩ <;>
    simp [runFetch, polComments]

lemma runFetch_pkg_noPR (b : Bool) (d : Nat) :
    ∀ (script : List (Resp RawRec)) (st : FSt RawRec),
    (∀ r ∈ st.acc, r.hasPR = false) →
    ∀ l, (runFetch polPkgIssues (pkgPageAccum b) 100 d script st).2 = FOut.done l →
    ∀ r ∈ l, r.hasPR = false := by
  intro script
  induction script with
  | nil =>
    intro st _ l hl
    simp [runFetch] at hl
  | cons resp rest ih =>
    intro st hacc l hl r hr
    have haccum : ∀ records, ∀ x ∈ pkgPageAccum b records, x.hasPR = false := by
      intro records x hx
      rw [pkgPageAccum_eq_filter] at hx
      simpa using (List.mem_filter.mp hx).2
    cases resp with
    | ok records =>
      by_cases h1 : records.isEmpty
      · simp [runFetch, h1] at hl
        rw [← hl] at hr
        exact hacc r hr
      · by_cases h2 : records.length < 100
        · simp [runFetch, h1, h2] at hl
          rw [← hl] at hr
          rcases List.mem_append.mp hr with h | h
          · exact hacc r h
          · exact haccum records r h
        · simp only [runFetch, h1, Bool.false_eq_true, if_false, h2] at hl
          refine ih _ ?_ l hl r hr
          intro x hx
          rcases List.mem_append.mp hx with h | h
          · exact hacc x h
          · exact haccum records x h
    | forbidden rl reset =>
      cases rl with
      | true =>
        by_cases h : (reset : Int) - (st.clock : Int) + 1 < 0
        · simp [runFetch, h] at hl
        · simp only [runFetch, h, if_false] at hl
          exact ih ⟨st.page, st.clock + ((reset : Int) - (st.clock : Int) + 1).toNat,
            st.acc⟩ hacc l hl r hr
      | false =>
        simp [runFetch, polPkgIssues] at hl
        rw [← hl] at hr
        exact hacc r hr
    | httpError s =>
      simp [runFetch, polPkgIssues] at hl
      rw [← hl] at hr
      exact hacc r hr
    | badJson =>
      simp [runFetch, polPkgIssues] at hl
      rw [← hl] at hr
      exact hacc r hr
    | netError =>
      simp [runFetch, polPkgIssues] at hl
      rw [← hl] at hr
      exact hacc r hr

/-- C4: the analyzer's `fetch_issues` sends `state = "open"` exactly when
its open-only filter flag is set and `state = "all"` otherwise (the
default), and in both modes the per-page accumulation drops exactly the
records carrying the `pull_request` marker, so the returned issue list
never contains a PR-tagged record. -/
theorem state_param_and_pr_filter (b : Bool) :
    stateParam b = (if b then "open" else "all")
    ∧ (∀ page : List RawRec, pkgPageAccum b page = page.filter (fun r => !r.hasPR))
    ∧ (∀ d c script l,
        (runFetch polPkgIssues (pkgPageAccum b) 100 d script ⟨1, c, []⟩).2
          = FOut.done l → ∀ r ∈ l, r.hasPR = false) := by
  refine ⟨rfl, pkgPageAccum_eq_filter b, ?_⟩
  intro d c script l hl r hr
  exact runFetch_pkg_noPR b d script ⟨1, c, []⟩ (by simp) l hl r hr

/-- C4 witness: in open-only mode the state parameter is "open" and a page
holding one PR record and one plain record contributes only the plain
record, which indeed carries no PR marker. -/
theorem state_param_and_pr_filter_witness :
    stateParam true = "open" ∧ (RawRec.mk 2 false).hasPR = false :=
  ⟨(state_param_and_pr_filter true).1,
   (state_param_and_pr_filter true).2.2 0 0
     [Resp.ok [RawRec.mk 1 true, RawRec.mk 2 false]] [RawRec.mk 2 false]
     (by decide) (RawRec.mk 2 false) (by decide)⟩

/-- An issue record, reduced to the fields the analysis passes read:
`number`, `title`, `body`, `state`, the label names, and the parsed
`created_at` timestamp (seconds; `none` models a missing/empty field). -/
structure Issue where
  number : Nat
  title : Option String
  body : Option String
  state : String
  labels : List String
  createdAt : Option Int
deriving DecidableEq

/-- The search response `check_issue_has_pr` inspects: an HTTP status with
the `total_count` of the JSON body, or any raised exception (network
error or JSON decode error, both swallowed by the bare `except`). -/
inductive SearchResp where
  | ok (status : Nat) (totalCount : Nat)
  | failure
deriving DecidableEq

/-- `check_issue_has_pr` of the analyzer: `total_count > 0` when the
search call returns status 200, and `False` in every other case (non-200
status or exception). -/
def check_issue_has_pr (r : SearchResp) : Bool :=
  match r with
  | SearchResp.ok status totalCount => status == 200 && decide (0 < totalCount)
  | SearchResp.failure => false

/-- The `--no-pr` filtering loop of the analyzer's `main`: keep exactly
the issues for which `check_issue_has_pr` comes back `False`. -/
def filterNoPR (issues : List Issue) (resp : Nat → SearchResp) : List Issue :=
  issues.filter (fun i => !check_issue_has_pr (resp i.number))

/-- A plain issue used as a concrete probe input. -/
def probeIssue : Issue := ⟨1, none, none, "open", [], none⟩

/-- C6: if the PR-linkage search call fails (exception or any non-200
status), `check_issue_has_pr` reports `False`, and the main filtering loop
then retains the issue - the failure is swallowed, never propagated. -/
theorem pr_check_failure_swallowed :
    (∀ r : SearchResp,
      (r = SearchResp.failure ∨ ∃ s tc, r = SearchResp.ok s tc ∧ s ≠ 200) →
      check_issue_has_pr r = false)
    ∧ (∀ (issues : List Issue) (resp : Nat → SearchResp) (i : Issue),
        i ∈ issues → check_issue_has_pr (resp i.number) = false →
        i ∈ filterNoPR issues resp) := by
  constructor
  · rintro r (rfl | ⟨s, tc, rfl, hs⟩)
    · rfl
    · have hb : (s == 200) = false := by simpa using hs
      simp [check_issue_has_pr, hb]
  · intro issues resp i hi hc
    exact List.mem_filter.mpr ⟨hi, by simp [hc]⟩

/-- C6 witness: an exception during the search leaves the probe issue in
the filtered list. -/
theorem pr_check_failure_swallowed_witness :
    check_issue_has_pr SearchResp.failure = false ∧
    probeIssue ∈ filterNoPR [probeIssue] (fun _ => SearchResp.failure) :=
  ⟨pr_check_failure_swallowed.1 SearchResp.failure (Or.inl rfl),
   pr_check_failure_swallowed.2 [probeIssue] (fun _ => SearchResp.failure) probeIssue
     (by decide) (by decide)⟩

/-- `detect_unaddressed_errors`: for each issue whose state is `"open"`
and whose creation timestamp is present, compute the age in whole days
(`timedelta.days`, i.e. floor division of the second difference by 86400)
and flag the issue when that age exceeds 365 days. -/
def detect_unaddressed_errors (now : Int) (issues : List Issue) : List (Nat × Int) :=
  issues.filterMap (fun i =>
    if i.state = "open" then
      i.createdAt.bind (fun t =>
        if 365 < (now - t).fdiv 86400 then
          some (i.number, (now - t).fdiv 86400)
        else none)
    else none)

/-- C7: staleness flags exactly the open issues whose whole-day age
exceeds 365; an open issue created exactly 366 days ago is flagged with
age 366, one created exactly 365 days ago is not, and a closed issue is
never flagged regardless of age. -/
theorem staleness_boundary :
    (∀ (now : Int) (issues : List Issue) (n : Nat) (d : Int),
      (n, d) ∈ detect_unaddressed_errors now issues ↔
        ∃ i, i ∈ issues ∧ i.number = n ∧ i.state = "open" ∧
          ∃ t, i.createdAt = some t ∧ d = (now - t).fdiv 86400 ∧ 365 < d)
    ∧ (∀ now t : Int, now - t = 366 * 86400 →
        detect_unaddressed_errors now [⟨7, none, none, "open", [], some t⟩]
          = [(7, 366)])
    ∧ (∀ now t : Int, now - t = 365 * 86400 →
        detect_unaddressed_errors now [⟨7, none, none, "open", [], some t⟩] = [])
    ∧ (∀ now t : Int,
        detect_unaddressed_errors now [⟨7, none, none, "closed", [], some t⟩] = []) := by
  refine ⟨?_, ?_, ?_, ?_⟩
  · intro now issues n d
    simp only [detect_unaddressed_errors, List.mem_filterMap]
    constructor
    · rintro ⟨i, hi, hf⟩
      refine ⟨i, hi, ?_⟩
      split at hf
      · rename_i hst
        rw [Option.bind_eq_some] at hf
        obtain ⟨t, hc, hft⟩ := hf
        split at hft
        · rename_i hlt
          obtain ⟨hn, hd⟩ := Prod.mk.injEq .. ▸ Option.some.injEq .. ▸ hft
          exact ⟨hn, hst, t, hc, hd.symm, hd ▸ hlt⟩
        · exact absurd hft (by simp)
      · exact absurd hf (by simp)
    · rintro ⟨i, hi, hn, hst, t, hc, hd, hlt⟩
      subst hn
      subst hd
      exact ⟨i, hi, by rw [if_pos hst, hc, Option.some_bind, if_pos hlt]⟩
  · intro now t h
    have h366 : (now - t).fdiv 86400 = 366 := by rw [h]; decide
    simp [detect_unaddressed_errors, h366, show (365 : Int) < 366 by decide]
  · intro now t h
    have h365 : (now - t).fdiv 86400 = 365 := by rw [h]; decide
    simp [detect_unaddressed_errors, h365]
  · intro now t
    simp [detect_unaddressed_errors]

/-- C7 witness: with the current time 31622400 seconds past the epoch, an
open issue created at time 0 (exactly 366 days earlier) is flagged with
age 366. -/
theorem staleness_boundary_witness :
    (31622400 : Int) - 0 = 366 * 86400 ∧
    detect_unaddressed_errors 31622400 [⟨7, none, none, "open", [], some 0⟩]
      = [(7, 366)] :=
  ⟨by decide, staleness_boundary.2.1 31622400 0 (by decide)⟩

/-- ASCII case folding of one character, as Python `str.lower` acts on the
ASCII inputs the keyword matching uses. -/
def asciiLower (c : Char) : Char :=
  if 'A' ≤ c ∧ c ≤ 'Z' then Char.ofNat (c.toNat + 32) else c

/-- `str.lower()` on a whole string. -/
def lowerStr (s : String) : String := ⟨s.data.map asciiLower⟩

/-- Does the second list start with the first one? -/
def leadsWith : List Char → List Char → Bool
  | [], _ => true
  | _ :: _, [] => false
  | a :: as, b :: bs => a == b && leadsWith as bs

/-- Does the first list occur contiguously inside the second one?  This is
Python's `needle in hay` on strings. -/
def occursIn : List Char → List Char → Bool
  | needle, [] => leadsWith needle []
  | needle, h :: hs => leadsWith needle (h :: hs) || occursIn needle hs

/-- Python's `needle in hay` substring test. -/
def strContains (hay needle : String) : Bool := occursIn needle.data hay.data

/-- Declarative reading of the substring test: `needle` occurs in `hay`
between some prefix `p` and suffix `q`. -/
def HasSub (needle hay : String) : Prop :=
  ∃ p q, hay.data = p ++ needle.data ++ q

lemma leadsWith_iff : ∀ n h : List Char, leadsWith n h = true ↔ ∃ q, h = n ++ q := by
  intro n
  induction n with
  | nil => intro h; simp [leadsWith]
  | cons a as ih =>
    intro h
    cases h with
    | nil => simp [leadsWith]
    | cons b bs =>
      simp only [leadsWith, Bool.and_eq_true, beq_iff_eq, List.cons_append,
        List.cons.injEq, ih]
      constructor
      · rintro ⟨rfl, q, rfl⟩
        exact ⟨q, rfl, rfl⟩
      · rintro ⟨q, rfl, rfl⟩
        exact ⟨rfl, q, rfl⟩

lemma occursIn_iff : ∀ n h : List Char, occursIn n h = true ↔ ∃ p q, h = p ++ n ++ q := by
  intro n h
  induction h with
  | nil =>
    simp only [occursIn, leadsWith_iff]
    constructor
    · rintro ⟨q, hq⟩
      exact ⟨[], q, by simpa using hq⟩
    · rintro ⟨p, q, hpq⟩
      have h1 := (List.append_eq_nil.mp hpq.symm).1
      have h2 := (List.append_eq_nil.mp hpq.symm).2
      have h3 := (List.append_eq_nil.mp h1).2
      exact ⟨q, by simp [h3, h2]⟩
  | cons c cs ih =>
    simp only [occursIn, Bool.or_eq_true, leadsWith_iff, ih]
    constructor
    · rintro (⟨q, hq⟩ | ⟨p, q, hpq⟩)
      · exact ⟨[], q, by simpa using hq⟩
      · exact ⟨c :: p, q, by simp [hpq]⟩
    · rintro ⟨p, q, hpq⟩
      cases p with
      | nil => exact Or.inl ⟨q, by simpa using hpq⟩
      | cons x xs =>
        simp only [List.cons_append, List.cons.injEq] at hpq
        exact Or.inr ⟨xs, q, hpq.2⟩

lemma strContains_iff (hay needle : String) :
    strContains hay needle = true ↔ HasSub needle hay :=
  occursIn_iff needle.data hay.data

/-- The `bug_keywords` list of `categorize_issues`. -/
def bug_keywords : List String :=
  ["bug", "error", "crash", "fail", "broken", "not working"]

/-- The `doc_keywords` list of `categorize_issues`. -/
def doc_keywords : List String :=
  ["document", "doc", "readme", "tutorial", "example"]

/-- The `coding_keywords` list of `categorize_issues`. -/
def coding_keywords : List String :=
  ["exception", "stack trace", "compile", "syntax", "runtime"]

/-- The lowercased label names of an issue. -/
def lowLabels (i : Issue) : List String := i.labels.map lowerStr

/-- The lowercased title (empty when the title is missing or empty). -/
def lowTitle (i : Issue) : String := lowerStr (i.title.getD "")

/-- The lowercased body (empty when the body is missing or empty). -/
def lowBody (i : Issue) : String := lowerStr (i.body.getD "")

/-- `any(keyword in s for keyword in kws)`. -/
def anyKeyword (kws : List String) (s : String) : Bool :=
  kws.any (fun k => strContains s k)

/-- The bug test of `categorize_issues`: label `"bug"` present, or a bug
keyword occurring in the lowercased title or body. -/
def isBug (i : Issue) : Bool :=
  (lowLabels i).contains "bug" || anyKeyword bug_keywords (lowTitle i)
    || anyKeyword bug_keywords (lowBody i)

/-- The documentation test of `categorize_issues`. -/
def isDoc (i : Issue) : Bool :=
  (lowLabels i).contains "documentation" || anyKeyword doc_keywords (lowTitle i)
    || anyKeyword doc_keywords (lowBody i)

/-- The coding-error test of `categorize_issues` (no label clause). -/
def isCodingError (i : Issue) : Bool :=
  anyKeyword coding_keywords (lowTitle i) || anyKeyword coding_keywords (lowBody i)

/-- The three buckets returned by `categorize_issues`. -/
structure Categories where
  bugs : List Nat
  documentation : List Nat
  coding_errors : List Nat
deriving DecidableEq

/-- `categorize_issues`: one pass appending each issue's number to every
bucket whose test it satisfies - i.e. each bucket is the filtered list of
issue numbers, in input order. -/
def categorize_issues (issues : List Issue) : Categories :=
  ⟨(issues.filter isBug).map Issue.number,
   (issues.filter isDoc).map Issue.number,
   (issues.filter isCodingError).map Issue.number⟩

/-- Declarative bug membership: the label check or a substring occurrence
of a bug keyword in the case-folded title or body. -/
def BugProp (i : Issue) : Prop :=
  "bug" ∈ lowLabels i ∨ (∃ k ∈ bug_keywords, HasSub k (lowTitle i))
    ∨ (∃ k ∈ bug_keywords, HasSub k (lowBody i))

/-- Declarative documentation membership. -/
def DocProp (i : Issue) : Prop :=
  "documentation" ∈ lowLabels i ∨ (∃ k ∈ doc_keywords, HasSub k (lowTitle i))
    ∨ (∃ k ∈ doc_keywords, HasSub k (lowBody i))

/-- Declarative coding-error membership (keywords only, no label). -/
def CodingProp (i : Issue) : Prop :=
  (∃ k ∈ coding_keywords, HasSub k (lowTitle i))
    ∨ (∃ k ∈ coding_keywords, HasSub k (lowBody i))

lemma anyKeyword_iff (kws : List String) (s : String) :
    anyKeyword kws s = true ↔ ∃ k ∈ kws, HasSub k s := by
  simp [anyKeyword, List.any_eq_true, strContains_iff]

lemma isBug_iff (i : Issue) : isBug i = true ↔ BugProp i := by
  simp [isBug, BugProp, Bool.or_eq_true, anyKeyword_iff, or_assoc]

lemma isDoc_iff (i : Issue) : isDoc i = true ↔ DocProp i := by
  simp [isDoc, DocProp, Bool.or_eq_true, anyKeyword_iff, or_assoc]

lemma isCodingError_iff (i : Issue) : isCodingError i = true ↔ CodingProp i := by
  simp [isCodingError, CodingProp, Bool.or_eq_true, anyKeyword_iff]

/-- An issue whose body holds a stack trace and a compile error. -/
def stackTraceIssue : Issue :=
  ⟨11, none, some "Stack trace attached, compile error", "open", [], none⟩

/-- An issue titled "Update README". -/
def readmeIssue : Issue := ⟨22, some "Update README", none, "open", [], none⟩

/-- An issue matching no category. -/
def plainIssue : Issue := ⟨33, some "hello", none, "open", [], none⟩

/-- C8: categorization is case-folded substring matching of the keyword
sets over title and body plus label membership, categories are
independent (an issue may land in several or none); the stack-trace issue
matches coding_error and also bug - a bug keyword ("error") does occur in
its body - and the "Update README" issue matches documentation only. -/
theorem categorize_substring_spec :
    (∀ (issues : List Issue) (n : Nat),
      n ∈ (categorize_issues issues).bugs ↔
        ∃ i, i ∈ issues ∧ i.number = n ∧ BugProp i)
    ∧ (∀ (issues : List Issue) (n : Nat),
      n ∈ (categorize_issues issues).documentation ↔
        ∃ i, i ∈ issues ∧ i.number = n ∧ DocProp i)
    ∧ (∀ (issues : List Issue) (n : Nat),
      n ∈ (categorize_issues issues).coding_errors ↔
        ∃ i, i ∈ issues ∧ i.number = n ∧ CodingProp i)
    ∧ categorize_issues [stackTraceIssue] = ⟨[11], [], [11]⟩
    ∧ categorize_issues [readmeIssue] = ⟨[], [22], []⟩
    ∧ categorize_issues [plainIssue] = ⟨[], [], []⟩ := by
  refine ⟨?_, ?_, ?_, by decide, by decide, by decide⟩
  · intro issues n
    simp only [categorize_issues, List.mem_map, List.mem_filter]
    constructor
    · rintro ⟨i, ⟨hi, hb⟩, hn⟩
      exact ⟨i, hi, hn, (isBug_iff i).mp hb⟩
    · rintro ⟨i, hi, hn, hb⟩
      exact ⟨i, ⟨hi, (isBug_iff i).mpr hb⟩, hn⟩
  · intro issues n
    simp only [categorize_issues, List.mem_map, List.mem_filter]
    constructor
    · rintro ⟨i, ⟨hi, hb⟩, hn⟩
      exact ⟨i, hi, hn, (isDoc_iff i).mp hb⟩
    · rintro ⟨i, hi, hn, hb⟩
      exact ⟨i, ⟨hi, (isDoc_iff i).mpr hb⟩, hn⟩
  · intro issues n
    simp only [categorize_issues, List.mem_map, List.mem_filter]
    constructor
    · rintro ⟨i, ⟨hi, hb⟩, hn⟩
      exact ⟨i, hi, hn, (isCodingError_iff i).mp hb⟩
    · rintro ⟨i, hi, hn, hb⟩
      exact ⟨i, ⟨hi, (isCodingError_iff i).mpr hb⟩, hn⟩

/-- Python's regex class `\w` on ASCII: letters, digits, underscore. -/
def isWordChar (c : Char) : Bool :=
  (decide ('a' ≤ c) && decide (c ≤ 'z')) || (decide ('A' ≤ c) && decide (c ≤ 'Z'))
    || (decide ('0' ≤ c) && decide (c ≤ '9')) || c == '_'

/-- Python's regex class `\s`: space, tab, newline, carriage return,
vertical tab, form feed. -/
def isSpaceChar (c : Char) : Bool :=
  c == ' ' || c == '\t' || c == '\n' || c == '\r'
    || c == Char.ofNat 11 || c == Char.ofNat 12

/-- `re.sub(r'\s+', ' ', s)`: replace each maximal whitespace run by one
space; the flag records whether we are inside a run. -/
def collapseGo : Bool → List Char → List Char
  | _, [] => []
  | inRun, c :: cs =>
    if isSpaceChar c then
      if inRun then collapseGo true cs else ' ' :: collapseGo true cs
    else c :: collapseGo false cs

/-- `str.strip()`: drop leading and trailing whitespace. -/
def trimWs (l : List Char) : List Char :=
  ((l.dropWhile isSpaceChar).reverse.dropWhile isSpaceChar).reverse

/-- Title normalization of `detect_duplicates`: lowercase, delete every
character that is neither a word character nor whitespace
(`re.sub(r'[^\w\s]', '', title)`), collapse whitespace runs to single
spaces, and strip. -/
def normalizeTitle (t : String) : String :=
  ⟨trimWs (collapseGo false ((lowerStr t).data.filter
    (fun c => isWordChar c || isSpaceChar c)))⟩

/-- The grouping key of one issue: its normalized title, the title
defaulting to the empty string (`issue.get('title', '')`). -/
def normKey (i : Issue) : String := normalizeTitle (i.title.getD "")

/-- Append a key to the key order unless already present (first-occurrence
order of dict insertion). -/
def addKey (ks : List String) (k : String) : List String :=
  if k ∈ ks then ks else ks ++ [k]

/-- The normalized titles in first-occurrence order, as the ordered keys
of the `defaultdict`. -/
def keyList (issues : List Issue) : List String :=
  issues.foldl (fun ks i => addKey ks (normKey i)) []

/-- `title_groups[simplified].append(issue)`: extend the group of this
key, or open a new group at the end. -/
def addToGroups (k : String) (n : Nat) :
    List (String × List Nat) → List (String × List Nat)
  | [] => [(k, [n])]
  | (k2, ns) :: rest =>
    if k2 = k then (k2, ns ++ [n]) :: rest else (k2, ns) :: addToGroups k n rest

/-- The ordered `title_groups` dictionary of `detect_duplicates`, with
each group reduced to the issue numbers it collects. -/
def titleGroups (issues : List Issue) : List (String × List Nat) :=
  issues.foldl (fun gs i => addToGroups (normKey i) i.number gs) []

/-- `detect_duplicates`: the groups with more than one member, in
insertion order of each group's first occurrence. -/
def detect_duplicates (issues : List Issue) : List (String × List Nat) :=
  (titleGroups issues).filter (fun g => 1 < g.2.length)

/-- The issue numbers whose normalized title equals `k`, in input order. -/
def numsOf (issues : List Issue) (k : String) : List Nat :=
  (issues.filter (fun i => normKey i == k)).map Issue.number

/-- The spec's description of duplicate detection: group the issues by
normalized title, keys in first-occurrence order, and keep exactly the
groups of size at least two. -/
def dupGroupsSpec (issues : List Issue) : List (String × List Nat) :=
  ((keyList issues).map (fun k => (k, numsOf issues k))).filter
    (fun g => 1 < g.2.length)

lemma mem_addKey {ks : List String} {k k2 : String} :
    k ∈ addKey ks k2 ↔ k ∈ ks ∨ k = k2 := by
  unfold addKey
  split
  · rename_i h
    exact ⟨Or.inl, fun hor => hor.elim id (fun he => he ▸ h)⟩
  · simp [List.mem_append]

lemma addKey_nodup {ks : List String} (k : String) (h : ks.Nodup) :
    (addKey ks k).Nodup := by
  unfold addKey
  split
  · exact h
  · rename_i hk
    refine List.nodup_append.mpr ⟨h, List.nodup_singleton k, ?_⟩
    intro a ha hb
    have : a = k := by simpa using hb
    exact hk (this ▸ ha)

lemma foldl_addKey_mem : ∀ (issues : List Issue) (ks : List String) (k : String),
    k ∈ issues.foldl (fun ks i => addKey ks (normKey i)) ks ↔
      k ∈ ks ∨ ∃ i, i ∈ issues ∧ normKey i = k := by
  intro issues
  induction issues with
  | nil => intro ks k; simp
  | cons i is ih =>
    intro ks k
    rw [List.foldl_cons, ih, mem_addKey]
    constructor
    · rintro ((h | h) | ⟨j, hj, hk⟩)
      · exact Or.inl h
      · exact Or.inr ⟨i, List.mem_cons_self _ _, h.symm⟩
      · exact Or.inr ⟨j, List.mem_cons_of_mem _ hj, hk⟩
    · rintro (h | ⟨j, hj, hk⟩)
      · exact Or.inl (Or.inl h)
      · rcases List.mem_cons.mp hj with h | h
        · exact Or.inl (Or.inr (h ▸ hk).symm)
        · exact Or.inr ⟨j, h, hk⟩

lemma foldl_addKey_nodup : ∀ (issues : List Issue) (ks : List String),
    ks.Nodup → (issues.foldl (fun ks i => addKey ks (normKey i)) ks).Nodup := by
  intro issues
  induction issues with
  | nil => intro ks h; simpa using h
  | cons i is ih =>
    intro ks h
    rw [List.foldl_cons]
    exact ih _ (addKey_nodup _ h)

lemma numsOf_append (issues : List Issue) (i : Issue) (k : String) :
    numsOf (issues ++ [i]) k
      = numsOf issues k ++ (if normKey i == k then [i.number] else []) := by
  simp only [numsOf, List.filter_append, List.map_append]
  congr 1
  cases h : (normKey i == k) <;> simp [List.filter_cons, h]

lemma numsOf_nil_of_none {issues : List Issue} {k : String}
    (h : ∀ i ∈ issues, normKey i ≠ k) : numsOf issues k = [] := by
  have : issues.filter (fun i => normKey i == k) = [] := by
    rw [List.filter_eq_nil_iff]
    intro i hi
    simp [h i hi]
  simp [numsOf, this]

lemma addToGroups_absent (f : String → List Nat) :
    ∀ (ks : List String) (k : String) (n : Nat), k ∉ ks →
    addToGroups k n (ks.map (fun k2 => (k2, f k2)))
      = ks.map (fun k2 => (k2, f k2)) ++ [(k, [n])] := by
  intro ks
  induction ks with
  | nil => intro k n _; rfl
  | cons a as ih =>
    intro k n hk
    have hne : a ≠ k := fun h => hk (h ▸ List.mem_cons_self _ _)
    have hk' : k ∉ as := fun h => hk (List.mem_cons_of_mem _ h)
    simp only [List.map_cons, addToGroups, if_neg hne, List.cons_append]
    rw [ih k n hk']

lemma addToGroups_present (f : String → List Nat) :
    ∀ (ks : List String) (k : String) (n : Nat), ks.Nodup → k ∈ ks →
    addToGroups k n (ks.map (fun k2 => (k2, f k2)))
      = ks.map (fun k2 => (k2, if k2 = k then f k2 ++ [n] else f k2)) := by
  intro ks
  induction ks with
  | nil => intro k n _ h; cases h
  | cons a as ih =>
    intro k n hnd hk
    by_cases hak : a = k
    · subst hak
      have ha : a ∉ as := (List.nodup_cons.mp hnd).1
      simp only [List.map_cons, addToGroups, eq_self_iff_true, if_true]
      congr 1
      apply List.map_congr_left
      intro x hx
      have hxa : x ≠ a := fun h => ha (h ▸ hx)
      simp [hxa]
    · have hk' : k ∈ as := by
        rcases List.mem_cons.mp hk with h | h
        · exact absurd h.symm hak
        · exact h
      have hnd' : as.Nodup := (List.nodup_cons.mp hnd).2
      simp only [List.map_cons, addToGroups, if_neg hak]
      rw [ih k n hnd' hk']

lemma titleGroups_step (done : List Issue) (i : Issue) :
    addToGroups (normKey i) i.number
        ((keyList done).map (fun k => (k, numsOf done k)))
      = (keyList (done ++ [i])).map (fun k => (k, numsOf (done ++ [i]) k)) := by
  have hkl : keyList (done ++ [i]) = addKey (keyList done) (normKey i) := by
    simp [keyList, List.foldl_append]
  have hnd : (keyList done).Nodup := foldl_addKey_nodup done [] List.nodup_nil
  by_cases hmem : normKey i ∈ keyList done
  · have haddk : addKey (keyList done) (normKey i) = keyList done := by
      simp [addKey, hmem]
    rw [hkl, haddk,
      addToGroups_present (numsOf done) (keyList done) (normKey i) i.number hnd hmem]
    apply List.map_congr_left
    intro k _
    rw [numsOf_append]
    by_cases hek : k = normKey i
    · subst hek
      simp
    · have hbe : (normKey i == k) = false :=
        beq_eq_false_iff_ne.mpr (fun h => hek h.symm)
      simp [hek, hbe]
  · have haddk : addKey (keyList done) (normKey i) = keyList done ++ [normKey i] := by
      simp [addKey, hmem]
    rw [hkl, haddk,
      addToGroups_absent (numsOf done) (keyList done) (normKey i) i.number hmem,
      List.map_append]
    congr 1
    · apply List.map_congr_left
      intro k hk
      rw [numsOf_append]
      have hne : normKey i ≠ k := fun h => hmem (h ▸ hk)
      have hbe : (normKey i == k) = false := beq_eq_false_iff_ne.mpr hne
      simp [hbe]
    · have hnone : ∀ j ∈ done, normKey j ≠ normKey i := by
        intro j hj h
        exact hmem ((foldl_addKey_mem done [] (normKey i)).mpr (Or.inr ⟨j, hj, h⟩))
      simp [numsOf_append, numsOf_nil_of_none hnone]

lemma titleGroups_eq : ∀ (rest done : List Issue),
    rest.foldl (fun gs i => addToGroups (normKey i) i.number gs)
        ((keyList done).map (fun k => (k, numsOf done k)))
      = (keyList (done ++ rest)).map (fun k => (k, numsOf (done ++ rest) k)) := by
  intro rest
  induction rest with
  | nil => intro done; simp
  | cons i is ih =>
    intro done
    rw [List.foldl_cons, titleGroups_step done i, ih (done ++ [i]),
      List.append_cons done i is]

lemma titleGroups_spec (issues : List Issue) :
    titleGroups issues = (keyList issues).map (fun k => (k, numsOf issues k)) := by
  have h := titleGroups_eq issues []
  simpa [titleGroups, keyList] using h

/-- C9: duplicate detection equals grouping by normalized title (keys in
first-occurrence order, each group listing its issue numbers in input
order) restricted to the groups of size at least two; the three "fix
login bug" variants form one group and "Unrelated" is excluded. -/
theorem duplicate_grouping_spec :
    (∀ issues : List Issue, detect_duplicates issues = dupGroupsSpec issues)
    ∧ detect_duplicates
        [⟨1, some "Fix login bug", none, "open", [], none⟩,
         ⟨2, some "fix login bug!", none, "open", [], none⟩,
         ⟨3, some "Fix Login Bug", none, "closed", [], none⟩,
         ⟨4, some "Unrelated", none, "open", [], none⟩]
      = [("fix login bug", [1, 2, 3])] := by
  refine ⟨?_, by decide⟩
  intro issues
  rw [detect_duplicates, dupGroupsSpec, titleGroups_spec]

lemma asciiLower_of_not_word {c : Char} (h : isWordChar c = false) :
    asciiLower c = c := by
  unfold asciiLower
  split
  · rename_i hc
    exfalso
    have hw : isWordChar c = true := by
      simp [isWordChar, hc.1, hc.2]
    rw [hw] at h
    exact Bool.noConfusion h
  · rfl

lemma collapseGo_all_space : ∀ l : List Char, (∀ c ∈ l, isSpaceChar c = true) →
    collapseGo true l = [] ∧ (collapseGo false l = [] ∨ collapseGo false l = [' ']) := by
  intro l
  induction l with
  | nil => intro _; exact ⟨rfl, Or.inl rfl⟩
  | cons c cs ih =>
    intro h
    have hc : isSpaceChar c = true := h c (List.mem_cons_self _ _)
    have ih' := ih (fun x hx => h x (List.mem_cons_of_mem _ hx))
    refine ⟨by simp [collapseGo, hc, ih'.1], Or.inr ?_⟩
    simp [collapseGo, hc, ih'.1]

/-- Two issues with no usable title: one with the title absent, one whose
title is punctuation only. -/
def emptyTitleIssues : List Issue :=
  [⟨1, none, none, "open", [], none⟩, ⟨2, some "?!?", none, "open", [], none⟩]

/-- C10: a title made only of non-word characters (punctuation and
whitespace, or absent) normalizes to the empty string, and whenever at
least two issues of a set normalize to the empty string, duplicate
detection emits the group keyed by the empty string holding exactly those
issues' numbers - and no other group carries that key. -/
theorem empty_title_group :
    (∀ t : String, (∀ c ∈ t.data, isWordChar c = false) → normalizeTitle t = "")
    ∧ (∀ issues : List Issue,
        2 ≤ (issues.filter (fun i => normKey i == "")).length →
        ("", numsOf issues "") ∈ detect_duplicates issues
        ∧ 2 ≤ (numsOf issues "").length
        ∧ ∀ g ∈ detect_duplicates issues, g.1 = "" → g = ("", numsOf issues "")) := by
  constructor
  · intro t ht
    have hfilter : ∀ c ∈ (lowerStr t).data.filter
        (fun c => isWordChar c || isSpaceChar c), isSpaceChar c = true := by
      intro c hc
      obtain ⟨hmem, hp⟩ := List.mem_filter.mp hc
      have hmem2 : c ∈ t.data.map asciiLower := by simpa [lowerStr] using hmem
      obtain ⟨c0, hc0, rfl⟩ := List.mem_map.mp hmem2
      have hw0 : isWordChar c0 = false := ht c0 hc0
      rw [asciiLower_of_not_word hw0] at hp ⊢
      simpa [hw0] using hp
    obtain ⟨h1, h2⟩ := collapseGo_all_space _ hfilter
    have htrim : trimWs (collapseGo false ((lowerStr t).data.filter
        (fun c => isWordChar c || isSpaceChar c))) = [] := by
      rcases h2 with h2 | h2 <;> rw [h2] <;> decide
    unfold normalizeTitle
    rw [htrim]
  · intro issues hlen
    have hexists : ∃ i, i ∈ issues ∧ normKey i = "" := by
      have hpos : 0 < (issues.filter (fun i => normKey i == "")).length := by omega
      obtain ⟨i, hi⟩ :=
        List.exists_mem_of_ne_nil _ (List.length_pos.mp hpos)
      have hm := List.mem_filter.mp hi
      exact ⟨i, hm.1, by simpa using hm.2⟩
    have hkey : "" ∈ keyList issues :=
      (foldl_addKey_mem issues [] "").mpr (Or.inr hexists)
    have hlen2 : 2 ≤ (numsOf issues "").length := by
      rw [numsOf, List.length_map]
      exact hlen
    refine ⟨?_, hlen2, ?_⟩
    · simp only [detect_duplicates]
      rw [titleGroups_spec]
      apply List.mem_filter.mpr
      refine ⟨List.mem_map.mpr ⟨"", hkey, rfl⟩, ?_⟩
      have hone : 1 < (numsOf issues "").length := by omega
      simpa using hone
    · intro g hg hg1
      simp only [detect_duplicates] at hg
      rw [titleGroups_spec] at hg
      have hg2 := (List.mem_filter.mp hg).1
      obtain ⟨k, _, hkeq⟩ := List.mem_map.mp hg2
      rw [← hkeq] at hg1 ⊢
      have hk0 : k = "" := hg1
      subst hk0
      rfl

/-- C10 witness: a missing title and the title "?!?" both normalize to ""
and land in one shared duplicate group. -/
theorem empty_title_group_witness :
    normalizeTitle "?!?" = "" ∧
    ("", numsOf emptyTitleIssues "") ∈ detect_duplicates emptyTitleIssues :=
  ⟨empty_title_group.1 "?!?" (by decide),
   (empty_title_group.2 emptyTitleIssues (by decide)).1⟩
